import Mathlib

/-
Verification of the THA (True Health Age) deterministic hazard engine.

This file shallowly embeds the scoring engine of `tha_engine.py`:
the bin classifier (`_raw_to_bin`, `_score_multiselect`), the hazard
lookup (`_item_lnhr`), BMI preprocessing (`_calculate_bmi`,
`_bmi_to_lnhr`), engine construction and validation
(`THAEngine.__init__`, `THAEngine._validate`), evaluation
(`THAEngine.compute`) and the scenario evaluator (`THAEngine.what_if`).

Numeric answers, hazard ratios and configuration constants are embedded
as rationals (Python floats in the config are decimal literals), so the
classification / hazard-selection layer is fully computable; the
log-space aggregation of `compute` is carried out over the reals with
`Real.log`, mirroring `math.log`.  Python exceptions (`ValueError`,
`KeyError`, `TypeError`) become an explicit error type `Err` and
fallible code returns `Except Err`.
-/

namespace THA

/-- Python exceptions raised by the engine. -/
inductive Err where
  | valueError (msg : String)
  | keyError (key : String)
  | typeError
  | indexError
deriving DecidableEq, Repr

/-- The union type of raw form answers: an option-code string, a bare
integer (Python `int`), a number (Python `float`), a `(value, gender)`
pair (Python 2-tuple), or a list of selected labels (multi-select). -/
inductive Raw where
  | str (s : String)
  | int (n : ℤ)
  | num (q : ℚ)
  | pair (q : ℚ) (g : String)
  | listSel (xs : List String)
deriving DecidableEq, Repr

/-- One entry of an item's `options_range` list: optional gender filter,
optional inclusive bounds (absent, `None`, `"-inf"` / `"inf"` all mean
the corresponding infinity), and the target bin. -/
structure RangeRule where
  gender? : Option String
  min? : Option ℚ
  max? : Option ℚ
  bin : ℤ
deriving DecidableEq, Repr

/-- A domain's configuration record: the two clamp bounds, each possibly
missing from the config dict (checked by `_validate`). -/
structure DomainCaps where
  lo? : Option ℚ
  hi? : Option ℚ
deriving DecidableEq, Repr

/-- One item record of the configuration. -/
structure Item where
  id : String
  domain : String
  hr : List ℚ
  missing_hr : Option ℚ
  order : Option ℤ
  group : Option String
  input_type : Option String
  options : Option (List (String × ℤ))
  options_range : Option (List RangeRule)
  scoring_weights : List (String × ℚ)
  bins : Option (List String)
deriving DecidableEq, Repr

/-- The top-level configuration document. -/
structure Config where
  algo_version : Option String
  mrdt_years : ℚ
  age_clamp_years : Option ℚ
  domains : List (String × DomainCaps)
  items : List Item
deriving DecidableEq, Repr

/-- Python `int()` applied to a float: truncation toward zero. -/
def pyInt (q : ℚ) : ℤ :=
  if 0 ≤ q then ⌊q⌋ else -⌊-q⌋

/-- Python list indexing `xs[i]`: nonnegative indices from the front,
negative indices from the back, `none` for `IndexError`. -/
def pyIndex (xs : List ℚ) (i : ℤ) : Option ℚ :=
  if 0 ≤ i ∧ i < (xs.length : ℤ) then xs.get? i.toNat
  else if -(xs.length : ℤ) ≤ i ∧ i < 0 then xs.get? (i + (xs.length : ℤ)).toNat
  else none

/-- The hard-coded sentinel labels of `_score_multiselect`. -/
def sentinels : List String := ["None", "Not sure", "No"]

/-- Embedding of `_score_multiselect`: empty selection scores 0, a lone
sentinel scores 0, otherwise either the sum of configured weights over
the selected labels or, with no weights, the count of non-sentinel
labels. -/
def scoreMultiselect (item : Item) (selected : List String) : ℚ :=
  if selected.isEmpty then 0
  else if selected.length = 1 ∧ sentinels.contains (selected.headD "") then 0
  else if item.scoring_weights.isEmpty then
    ((selected.filter (fun s => !(sentinels.contains s))).length : ℚ)
  else
    selected.foldl
      (fun acc o =>
        match item.scoring_weights.lookup o with
        | some w => acc + w
        | none => acc) 0

/-- Lower-bound test of one range descriptor (absent bound = `-inf`). -/
def loOK (r : RangeRule) (v : ℚ) : Bool :=
  match r.min? with
  | none => true
  | some lo => decide (lo ≤ v)

/-- Upper-bound test of one range descriptor (absent bound = `inf`). -/
def hiOK (r : RangeRule) (v : ℚ) : Bool :=
  match r.max? with
  | none => true
  | some hi => decide (v ≤ hi)

/-- The gender-filtered scan of `options_range`: first rule whose gender
equals the given one and whose inclusive range contains the value. -/
def findRangeGender (rngs : List RangeRule) (v : ℚ) (g : String) : Option ℤ :=
  match rngs with
  | [] => none
  | r :: rest =>
      if r.gender? ≠ some g then findRangeGender rest v g
      else if loOK r v && hiOK r v then some r.bin
      else findRangeGender rest v g

/-- The unfiltered scan of `options_range`: first rule whose inclusive
range contains the value. -/
def findRange (rngs : List RangeRule) (v : ℚ) : Option ℤ :=
  match rngs with
  | [] => none
  | r :: rest =>
      if loOK r v && hiOK r v then some r.bin
      else findRange rest v

/-- The shapes `isinstance(raw, (int, float)) or isinstance(raw, tuple)`
accepted by the numeric-range branch: a bare number or a 2-tuple. -/
def rangeArg : Raw → Option (Sum ℚ (ℚ × String))
  | Raw.int n => some (Sum.inl (n : ℚ))
  | Raw.num q => some (Sum.inl q)
  | Raw.pair q g => some (Sum.inr (q, g))
  | _ => none

/-- The multi-select arm of `_raw_to_bin`: threshold mapping for the two
medical-history items, `min(int(score), max_bin)` for the rest. -/
def multiSelectBin (item : Item) (sel : List String) (max_bin : ℤ) :
    Except Err (Option ℤ) :=
  if item.id = "family_history" ∨ item.id = "personal_conditions" then
    if scoreMultiselect item sel < 1/10 then Except.ok (some max_bin)
    else if scoreMultiselect item sel < 3/10 then Except.ok (some (max_bin - 1))
    else if scoreMultiselect item sel < 6/10 then Except.ok (some (max_bin - 2))
    else Except.ok (some 0)
  else Except.ok (some (min (pyInt (scoreMultiselect item sel)) max_bin))

/-- The numeric-range and direct-index arms of `_raw_to_bin`, reached
when the answer is neither a multi-select list, nor free text, nor a
string hitting an `options` table. -/
def rawToBinRange (item : Item) (raw : Raw) (max_bin : ℤ) :
    Except Err (Option ℤ) :=
  match item.options_range, rangeArg raw with
  | some rngs, some arg =>
      if rngs.any (fun r => r.gender?.isSome) then
        let vg : ℚ × String :=
          match arg with
          | Sum.inl v => (v, "male")
          | Sum.inr p => p
        match findRangeGender rngs vg.1 vg.2 with
        | some b => Except.ok (some b)
        | none =>
            Except.error (Err.valueError
              ("Value not in any range for " ++ item.id))
      else
        match arg with
        | Sum.inl v =>
            match findRange rngs v with
            | some b => Except.ok (some b)
            | none =>
                Except.error (Err.valueError
                  ("Value not in any range for " ++ item.id))
        | Sum.inr _ =>
            if rngs.isEmpty then
              Except.error (Err.valueError
                ("Value not in any range for " ++ item.id))
            else Except.error Err.typeError
  | _, _ =>
      match raw with
      | Raw.int n =>
          if 0 ≤ n ∧ n ≤ max_bin then Except.ok (some n)
          else
            Except.error (Err.valueError
              ("Cannot interpret answer for " ++ item.id))
      | _ =>
          Except.error (Err.valueError
            ("Cannot interpret answer for " ++ item.id))

/-- The scalar part of `_raw_to_bin` after the multi-select arm: free
text yields no bin; a string answer with an `options` table is looked
up; otherwise the range / direct-index arms decide. -/
def rawToBinScalar (item : Item) (raw : Raw) (max_bin : ℤ) :
    Except Err (Option ℤ) :=
  if item.input_type = some "free_text" then Except.ok none
  else
    match item.options, raw with
    | some mapping, Raw.str s =>
        match mapping.lookup s with
        | some b => Except.ok (some b)
        | none =>
            Except.error (Err.valueError
              ("Unknown option " ++ s ++ " for " ++ item.id))
    | _, _ => rawToBinRange item raw max_bin

/-- Embedding of `_raw_to_bin`: maps one raw answer to a bin index (or
`none`), following the source's branch order, with
`max_bin = len(item["hr"]) - 1`. -/
def rawToBin (item : Item) (raw : Raw) : Except Err (Option ℤ) :=
  match raw with
  | Raw.listSel sel =>
      if item.input_type = some "multi_select" then
        multiSelectBin item sel ((item.hr.length : ℤ) - 1)
      else rawToBinScalar item raw ((item.hr.length : ℤ) - 1)
  | _ => rawToBinScalar item raw ((item.hr.length : ℤ) - 1)

/-- The expression `item["hr"][bin_index] if bin_index is not None else
item.get("missing_hr", 1.0)` of `_item_lnhr`. -/
def itemHRsel (item : Item) (bin? : Option ℤ) : Except Err ℚ :=
  match bin? with
  | some i =>
      match pyIndex item.hr i with
      | some v => Except.ok v
      | none => Except.error Err.indexError
  | none => Except.ok (item.missing_hr.getD 1)

/-- The hazard-ratio selection inside `_item_lnhr`: the indexed `hr`
entry for a classified bin, `missing_hr` (default 1) otherwise, with
the `hr <= 0` guard.  `_item_lnhr` itself is `Real.log` of this. -/
def itemHRval (item : Item) (bin? : Option ℤ) : Except Err ℚ :=
  match itemHRsel item bin? with
  | Except.error e => Except.error e
  | Except.ok hr =>
      if hr ≤ 0 then
        Except.error (Err.valueError ("HR must be >0 for " ++ item.id))
      else Except.ok hr

/-- The height-to-centimetres conversion of `_calculate_bmi`. -/
def heightCm (hv : ℚ) (hu : String) : ℚ :=
  if hu = "in" ∨ hu = "inches" then hv * 2.54
  else if hu = "ft" ∨ hu = "feet" then hv * 30.48
  else hv

/-- The weight-to-kilograms conversion of `_calculate_bmi`. -/
def weightKg (wv : ℚ) (wu : String) : ℚ :=
  if wu = "lbs" ∨ wu = "pounds" ∨ wu = "lb" then wv * 0.453592
  else wv

/-- Embedding of `_calculate_bmi`: unit conversion to metric and
`weight / height_m²`, `none` when a value is missing or non-positive
(`height_m` is `heightCm / 100`). -/
def calculateBMI (hv? wv? : Option ℚ) (hu wu : String) : Option ℚ :=
  match hv?, wv? with
  | some hv, some wv =>
      if hv ≤ 0 ∨ wv ≤ 0 then none
      else if heightCm hv hu / 100 ≤ 0 then none
      else some (weightKg wv wu / (heightCm hv hu / 100) ^ 2)
  | _, _ => none

/-- The hazard ratio chosen by `_bmi_to_lnhr` (that function returns the
natural log of this value): the five clinical categories, or the 1.05
missing-data penalty. -/
def bmiHR : Option ℚ → ℚ
  | none => 1.05
  | some bmi =>
      if bmi < 18.5 then 1.2
      else if bmi < 25 then 1
      else if bmi < 30 then 1.15
      else if bmi < 35 then 1.4
      else 1.8

/-- The numeric content of a raw answer, as used by the comparisons of
`_calculate_bmi`; `none` marks the shapes on which Python's `<=` against
a number raises `TypeError`. -/
def rawNum? : Raw → Option ℚ
  | Raw.int n => some (n : ℚ)
  | Raw.num q => some q
  | _ => none

/-- The sort key `it.get("order", 999)` of `THAEngine.__init__`. -/
def orderKey (it : Item) : ℤ := it.order.getD 999

/-- Stable insertion of an item after all items of smaller-or-equal
order key, giving Python's stable `sorted(..., key=...)`. -/
def insertByOrder (it : Item) : List Item → List Item
  | [] => [it]
  | x :: xs =>
      if orderKey x ≤ orderKey it then x :: insertByOrder it xs
      else it :: x :: xs

/-- Items sorted by declared order, as in `THAEngine.__init__`. -/
def sortItems (l : List Item) : List Item :=
  l.foldl (fun acc it => insertByOrder it acc) []

/-- One `setdefault(grp, []).append(id)` step of group construction. -/
def addToGroups (gs : List (String × List String)) (g id : String) :
    List (String × List String) :=
  if gs.any (fun p => p.1 == g) then
    gs.map (fun p => if p.1 == g then (p.1, p.2 ++ [id]) else p)
  else gs ++ [(g, [id])]

/-- The `group -> ordered item ids` mapping built by
`THAEngine.__init__`. -/
def buildGroups (items : List Item) : List (String × List String) :=
  items.foldl (fun gs it => addToGroups gs (it.group.getD "ungrouped") it.id) []

/-- The domain half of `THAEngine._validate`: both clamp bounds present
and not inverted, first offender reported. -/
def validateDomains : List (String × DomainCaps) → Except Err Unit
  | [] => Except.ok ()
  | (d, caps) :: rest =>
      match caps.lo?, caps.hi? with
      | some lo, some hi =>
          if lo > hi then
            Except.error (Err.valueError ("Domain " ++ d ++ " has inverted caps"))
          else validateDomains rest
      | _, _ =>
          Except.error (Err.valueError
            ("Domain " ++ d ++ " missing ln_cap_lo/ln_cap_hi"))

/-- The item half of `THAEngine._validate`: at least two hazard ratios,
and a `bins` label list, when present, of matching length.  Hazard-ratio
values themselves are not inspected. -/
def validateItems : List Item → Except Err Unit
  | [] => Except.ok ()
  | it :: rest =>
      if it.hr.length < 2 then
        Except.error (Err.valueError
          (it.id ++ " must have at least 2 HR values"))
      else
        match it.bins with
        | some bs =>
            if bs.length ≠ it.hr.length then
              Except.error (Err.valueError
                (it.id ++ " bins length must match hr length"))
            else validateItems rest
        | none => validateItems rest

/-- The constructed engine: the fields `THAEngine.__init__` stores. -/
structure Engine where
  version : String
  mrdt_years : ℚ
  age_clamp_years : ℚ
  domains : List (String × DomainCaps)
  items : List Item
  groups : List (String × List String)
deriving DecidableEq, Repr

/-- Embedding of `THAEngine.__init__`: derives the engine state, then
runs `gompertz_b`'s positivity check and `_validate` eagerly. -/
def mkEngine (c : Config) : Except Err Engine :=
  if c.mrdt_years ≤ 0 then
    Except.error (Err.valueError "MRDT must be positive")
  else
    match validateDomains c.domains with
    | Except.error e => Except.error e
    | Except.ok _ =>
        match validateItems (sortItems c.items) with
        | Except.error e => Except.error e
        | Except.ok _ =>
            Except.ok
              ⟨c.algo_version.getD "THA-unknown", c.mrdt_years,
               c.age_clamp_years.getD 10, c.domains, sortItems c.items,
               buildGroups (sortItems c.items)⟩

/-- The keys of the per-domain accumulator dictionary `per_domain_ln`. -/
def domKeys (e : Engine) : List String := e.domains.map Prod.fst

/-- The BMI preprocessing step of `compute`, up to the hazard-ratio
choice: when both `height` and `weight` answers are present, compute BMI
from imperial inputs and pick the `_bmi_to_lnhr` hazard ratio, failing
with `KeyError` when the `"body"` domain is absent from the accumulator
(and with `TypeError` when a supplied value is not a number). -/
def coreBMI (e : Engine) (ans : List (String × Raw)) : Except Err (Option ℚ) :=
  match ans.lookup "height", ans.lookup "weight" with
  | some hraw, some wraw =>
      match rawNum? hraw with
      | none => Except.error Err.typeError
      | some hv =>
          if hv ≤ 0 then
            if (domKeys e).contains "body" then Except.ok (some (bmiHR none))
            else Except.error (Err.keyError "body")
          else
            match rawNum? wraw with
            | none => Except.error Err.typeError
            | some wv =>
                if (domKeys e).contains "body" then
                  Except.ok (some (bmiHR (calculateBMI (some hv) (some wv) "in" "lbs")))
                else Except.error (Err.keyError "body")
  | _, _ => Except.ok none

/-- The classification `_raw_to_bin(it, raw) if raw is not None else
None` of one item against the answer map. -/
def classifyAns (it : Item) (ans : List (String × Raw)) : Except Err (Option ℤ) :=
  match ans.lookup it.id with
  | some r => rawToBin it r
  | none => Except.ok none

/-- The per-item loop of `compute`, up to hazard-ratio selection: skip
the `height` / `weight` items, classify the answer, select the hazard
ratio, and record `(id, domain, hr)`, failing with `KeyError` when the
item's domain is not a key of the accumulator. -/
def coreItems (e : Engine) (ans : List (String × Raw)) :
    List Item → Except Err (List (String × String × ℚ))
  | [] => Except.ok []
  | it :: rest =>
      if it.id = "height" ∨ it.id = "weight" then coreItems e ans rest
      else
        match classifyAns it ans with
        | Except.error er => Except.error er
        | Except.ok bin? =>
            match itemHRval it bin? with
            | Except.error er => Except.error er
            | Except.ok hr =>
                if (domKeys e).contains it.domain then
                  match coreItems e ans rest with
                  | Except.error er => Except.error er
                  | Except.ok l => Except.ok ((it.id, it.domain, hr) :: l)
                else Except.error (Err.keyError it.domain)

/-- The cap lookups `caps["ln_cap_lo"]`, `caps["ln_cap_hi"]` of the
domain-clamp loop, in accumulator order, with their `KeyError`s. -/
def coreCaps : List (String × DomainCaps) → Except Err (List (String × ℚ × ℚ))
  | [] => Except.ok []
  | (d, caps) :: rest =>
      match caps.lo? with
      | none => Except.error (Err.keyError "ln_cap_lo")
      | some lo =>
          match caps.hi? with
          | none => Except.error (Err.keyError "ln_cap_hi")
          | some hi =>
              match coreCaps rest with
              | Except.error er => Except.error er
              | Except.ok l => Except.ok ((d, lo, hi) :: l)

/-- The discrete skeleton of one `compute` call: every branch, lookup
and failure of the evaluation, with all selected hazard ratios still as
exact rationals. -/
structure CoreOut where
  bmiHR? : Option ℚ
  itemHRs : List (String × String × ℚ)
  caps : List (String × ℚ × ℚ)
deriving DecidableEq, Repr

/-- The computable layer of `THAEngine.compute`: BMI preprocessing, the
item loop and the cap lookups, in the source's order. -/
def computeCore (e : Engine) (ans : List (String × Raw)) : Except Err CoreOut :=
  match coreBMI e ans with
  | Except.error er => Except.error er
  | Except.ok bmi? =>
      match coreItems e ans e.items with
      | Except.error er => Except.error er
      | Except.ok l =>
          match coreCaps e.domains with
          | Except.error er => Except.error er
          | Except.ok caps => Except.ok ⟨bmi?, l, caps⟩

/-- The Gompertz slope `b = ln 2 / mrdt_years` of `gompertz_b`. -/
noncomputable def Engine.b (e : Engine) : ℝ :=
  Real.log 2 / (e.mrdt_years : ℝ)

/-- The clamp `max(lo, min(hi, x))` used for domain caps and the global
age clamp. -/
noncomputable def clamp (lo hi x : ℝ) : ℝ := max lo (min hi x)

/-- A domain's accumulated log-hazard total before its clamp: the BMI
log-hazard (for `"body"`, when the BMI branch ran) plus the sum of the
logs of the hazard ratios of the items it owns. -/
noncomputable def domainRawLn (c : CoreOut) (d : String) : ℝ :=
  (match c.bmiHR? with
   | some q => if d == "body" then Real.log (q : ℝ) else 0
   | none => 0)
  + ((c.itemHRs.filter (fun t => t.2.1 == d)).map
      (fun t => Real.log ((t.2.2 : ℚ) : ℝ))).sum

/-- The immutable result record `THAResult`. -/
structure THAResult where
  THA : ℝ
  AgeAccel : ℝ
  domainYears : List (String × ℝ)
  itemYears : List (String × ℝ)
  algo_version : String
  b : ℝ
  groups : List (String × List String)

/-- The real-valued tail of `compute`: per-domain clamping, the grand
total, the global age clamp, and the result record. -/
noncomputable def resultOfCore (e : Engine) (age : ℚ) (c : CoreOut) : THAResult :=
  let clamped : List (String × ℝ) :=
    c.caps.map (fun t => (t.1, clamp (t.2.1 : ℝ) (t.2.2 : ℝ) (domainRawLn c t.1)))
  let lnTotal : ℝ := (clamped.map (fun p => p.2)).sum
  let delta0 : ℝ := lnTotal / e.b
  let ac : ℝ := (e.age_clamp_years : ℝ)
  let delta : ℝ := max (-ac) (min ac delta0)
  ⟨(age : ℝ) + delta, delta,
   clamped.map (fun p => (p.1, p.2 / e.b)),
   (match c.bmiHR? with
    | some q => [("bmi_calculated", Real.log (q : ℝ) / e.b)]
    | none => [])
     ++ c.itemHRs.map (fun t => (t.1, Real.log ((t.2.2 : ℚ) : ℝ) / e.b)),
   e.version, e.b, e.groups⟩

/-- Embedding of `THAEngine.compute`. -/
noncomputable def Engine.compute (e : Engine) (age : ℚ)
    (ans : List (String × Raw)) : Except Err THAResult :=
  (computeCore e ans).map (resultOfCore e age)

/-- One `proposed[k] = v` store of a Python dict: replace the binding
when the key is present, append it otherwise. -/
def dictSet (m : List (String × Raw)) (k : String) (v : Raw) :
    List (String × Raw) :=
  if m.any (fun p => p.1 == k) then
    m.map (fun p => if p.1 == k then (k, v) else p)
  else m ++ [(k, v)]

/-- The shallow merge `proposed = dict(answers); proposed.update(changes)`
of `what_if`. -/
def dictUpdate (base upd : List (String × Raw)) : List (String × Raw) :=
  upd.foldl (fun acc p => dictSet acc p.1 p.2) base

/-- The record `what_if` returns. -/
structure WhatIf where
  delta_years : ℝ
  new_THA : ℝ
  old_THA : ℝ

/-- Embedding of `THAEngine.what_if`: evaluate the baseline answers and
the shallow merge with the changes, and report the deltas. -/
noncomputable def Engine.what_if (e : Engine) (age : ℚ)
    (answers changes : List (String × Raw)) : Except Err WhatIf :=
  let proposed := dictUpdate answers changes
  match e.compute age answers with
  | Except.error er => Except.error er
  | Except.ok base =>
      match e.compute age proposed with
      | Except.error er => Except.error er
      | Except.ok newr =>
          Except.ok ⟨newr.AgeAccel - base.AgeAccel, newr.THA, base.THA⟩

/-- A configuration whose only flaw is a negative hazard ratio in its
single item: domains and lengths are valid. -/
def itC1 : Item :=
  ⟨"i", "d", [-1, 1], none, none, none, none, none, none, [], none⟩

/-- Configuration around `itC1`. -/
def cfgC1 : Config :=
  ⟨none, 8, none, [("d", ⟨some (-1), some 1⟩)], [itC1]⟩

/-- An item classified by a numeric-range rule whose first interval
covers all values from 0 up: an integer answer is range-matched, not
treated as a direct bin index. -/
def itC2r : Item :=
  ⟨"w", "d", [1.5, 1.0], none, none, none, none, none,
   some [⟨none, some 0, none, 0⟩], [], none⟩

/-- A free-text item: classification always yields no bin. -/
def itC2f : Item :=
  ⟨"notes", "d", [1.2, 1.0], none, none, none, some "free_text", none,
   none, [], none⟩

/-- A plain scalar item with neither a range rule nor free-text input:
direct bin indices apply to it. -/
def itC2w : Item :=
  ⟨"x", "d", [1.8, 1.3, 1.0], none, none, none, none, none, none, [], none⟩

/-- A multi-select item with no scoring weights. -/
def itC7 : Item :=
  ⟨"habits", "d", [1.6, 1.3, 1.1, 1.0], none, none, none,
   some "multi_select", none, none, [], none⟩

/-- A gender-partitioned waist-circumference style item: male and female
high-risk intervals plus their complements. -/
def itC9 : Item :=
  ⟨"waist", "d", [1.5, 1.0], none, none, none, none, none,
   some [⟨some "male", some 40, none, 0⟩, ⟨some "female", some 35, none, 0⟩,
         ⟨some "male", none, some 40, 1⟩, ⟨some "female", none, some 35, 1⟩],
   [], none⟩

/-- A configuration whose item declares a domain (`"d2"`) that is not a
key of the domains mapping. -/
def cfgC10a : Config :=
  ⟨none, 8, none, [("d1", ⟨some (-1), some 1⟩)],
   [⟨"i", "d2", [1.5, 1.0], none, none, none, none, none, none, [], none⟩]⟩

/-- A configuration with height and weight items but no `"body"` domain. -/
def cfgC10b : Config :=
  ⟨none, 8, none, [("d1", ⟨some (-1), some 1⟩)],
   [⟨"height", "d1", [1, 1], none, none, none, none, none, none, [], none⟩,
    ⟨"weight", "d1", [1, 1], none, none, none, none, none, none, [], none⟩]⟩

deriving instance DecidableEq for Except

/-- A minimal valid engine with a `"body"` domain and no items, used to
evaluate the compute pipeline on concrete inputs. -/
def eW : Engine := ⟨"v1", 8, 10, [("body", ⟨some (-5), some 5⟩)], [], []⟩

/-- Height and weight answers (70 in, 154 lbs). -/
def ansW : List (String × Raw) := [("height", Raw.num 70), ("weight", Raw.num 154)]

/-- The compute skeleton of `eW` on `ansW`: BMI ≈ 22.1 is in the normal
category, hazard ratio 1. -/
def cW : CoreOut := ⟨some 1, [], [("body", -5, 5)]⟩

/-- The result of `eW.compute 40 ansW`. -/
noncomputable def rW : THAResult := resultOfCore eW 40 cW

/-- A two-bin item, hazard ratios `[2, 1]`, classified by direct index. -/
def itW6 : Item :=
  ⟨"x", "d", [2, 1], none, none, none, none, none, none, [], none⟩

/-- A one-item engine around `itW6`. -/
def eW6 : Engine := ⟨"v1", 8, 10, [("d", ⟨some (-5), some 5⟩)], [itW6], []⟩

/-- Baseline answers: item `"x"` at bin 0 (worst). -/
def ansW6a : List (String × Raw) := [("x", Raw.int 0)]

/-- Improved answers: item `"x"` at bin 1 (best). -/
def ansW6b : List (String × Raw) := [("x", Raw.int 1)]

/-- The compute skeleton of `eW6` on `ansW6a`. -/
def cW6a : CoreOut := ⟨none, [("x", "d", 2)], [("d", -5, 5)]⟩

/-- The compute skeleton of `eW6` on `ansW6b`. -/
def cW6b : CoreOut := ⟨none, [("x", "d", 1)], [("d", -5, 5)]⟩

-- End of definitions; helper lemmas and claim theorems follow.

/- Helper lemmas on the classifier and validation. -/

lemma pyIndex_nat (xs : List ℚ) (n : ℕ) (hn : n < xs.length) :
    pyIndex xs (n : ℤ) = some (xs.get ⟨n, hn⟩) := by
  unfold pyIndex
  rw [if_pos ⟨Int.ofNat_nonneg n, by exact_mod_cast hn⟩]
  simp [List.get?_eq_get hn]

lemma itemHRsel_get (it : Item) (n : ℕ) (hn : n < it.hr.length) :
    itemHRsel it (some (n : ℤ)) = Except.ok (it.hr.get ⟨n, hn⟩) := by
  simp only [itemHRsel, pyIndex_nat it.hr n hn]

lemma itemHRval_get (it : Item) (n : ℕ) (hn : n < it.hr.length) :
    itemHRval it (some (n : ℤ)) =
      if it.hr.get ⟨n, hn⟩ ≤ 0 then
        Except.error (Err.valueError ("HR must be >0 for " ++ it.id))
      else Except.ok (it.hr.get ⟨n, hn⟩) := by
  simp only [itemHRval, itemHRsel_get it n hn]

lemma itemHRval_pos {it : Item} {bin? : Option ℤ} {hr : ℚ}
    (h : itemHRval it bin? = Except.ok hr) : 0 < hr := by
  cases hs : itemHRsel it bin? with
  | error er => simp only [itemHRval, hs] at h; cases h
  | ok v =>
      simp only [itemHRval, hs] at h
      by_cases hv : v ≤ 0
      · rw [if_pos hv] at h; cases h
      · rw [if_neg hv] at h
        cases h
        exact lt_of_not_le hv

lemma rawToBin_int (it : Item) (i : ℤ)
    (hft : it.input_type ≠ some "free_text")
    (hor : it.options_range = none)
    (h0 : 0 ≤ i) (h1 : i ≤ (it.hr.length : ℤ) - 1) :
    rawToBin it (Raw.int i) = Except.ok (some i) := by
  unfold rawToBin rawToBinScalar rawToBinRange
  simp only [hor, rangeArg]
  rw [if_neg hft]
  cases it.options <;> simp [h0, h1]

lemma validateDomains_ok (ds : List (String × DomainCaps))
    (h : ∀ p ∈ ds, ∃ lo hi, p.2.lo? = some lo ∧ p.2.hi? = some hi ∧ lo ≤ hi) :
    validateDomains ds = Except.ok () := by
  induction ds with
  | nil => rfl
  | cons p rest ih =>
      obtain ⟨lo, hi, hlo, hhi, hle⟩ := h p (List.mem_cons_self p rest)
      obtain ⟨d, caps⟩ := p
      unfold validateDomains
      simp only at hlo hhi
      simp only [hlo, hhi]
      rw [if_neg (not_lt.mpr hle)]
      exact ih fun q hq => h q (List.mem_cons_of_mem _ hq)

lemma validateItems_ok (l : List Item)
    (h : ∀ it ∈ l, 2 ≤ it.hr.length ∧
      ∀ bs, it.bins = some bs → bs.length = it.hr.length) :
    validateItems l = Except.ok () := by
  induction l with
  | nil => rfl
  | cons it rest ih =>
      obtain ⟨hlen, hbins⟩ := h it (List.mem_cons_self it rest)
      have hrest : validateItems rest = Except.ok () :=
        ih fun q hq => h q (List.mem_cons_of_mem _ hq)
      unfold validateItems
      rw [if_neg (not_lt.mpr hlen)]
      split
      · rename_i bs hb
        rw [if_neg (by simp [hbins bs hb])]
        exact hrest
      · exact hrest

lemma mem_insertByOrder {x it : Item} :
    ∀ {l : List Item}, x ∈ insertByOrder it l → x = it ∨ x ∈ l := by
  intro l
  induction l with
  | nil => intro h; simpa [insertByOrder] using h
  | cons a l ih =>
      intro h
      unfold insertByOrder at h
      split at h
      · rcases List.mem_cons.mp h with h | h
        · exact Or.inr (List.mem_cons.mpr (Or.inl h))
        · rcases ih h with h | h
          · exact Or.inl h
          · exact Or.inr (List.mem_cons.mpr (Or.inr h))
      · rcases List.mem_cons.mp h with h | h
        · exact Or.inl h
        · exact Or.inr h

lemma mem_sortItems {x : Item} {l : List Item} (h : x ∈ sortItems l) : x ∈ l := by
  suffices H : ∀ (l : List Item) (acc : List Item),
      x ∈ l.foldl (fun a i => insertByOrder i a) acc → x ∈ acc ∨ x ∈ l by
    rcases H l [] h with h' | h'
    · cases h'
    · exact h'
  intro l
  induction l with
  | nil => intro acc h; exact Or.inl h
  | cons a l ih =>
      intro acc h
      rcases ih (insertByOrder a acc) h with h' | h'
      · rcases mem_insertByOrder h' with h'' | h''
        · exact Or.inr (List.mem_cons.mpr (Or.inl h''))
        · exact Or.inl h''
      · exact Or.inr (List.mem_cons.mpr (Or.inr h'))

lemma mkEngine_ok (c : Config)
    (hm : 0 < c.mrdt_years)
    (hd : ∀ p ∈ c.domains, ∃ lo hi, p.2.lo? = some lo ∧ p.2.hi? = some hi ∧ lo ≤ hi)
    (hi : ∀ it ∈ c.items, 2 ≤ it.hr.length ∧
      ∀ bs, it.bins = some bs → bs.length = it.hr.length) :
    (mkEngine c).isOk = true := by
  unfold mkEngine
  rw [if_neg (not_le.mpr hm), validateDomains_ok c.domains hd,
      validateItems_ok (sortItems c.items)
        (fun it hmem => hi it (mem_sortItems hmem))]
  rfl

lemma computeCore_ok_parts {e : Engine} {ans : List (String × Raw)} {c : CoreOut}
    (h : computeCore e ans = Except.ok c) :
    coreBMI e ans = Except.ok c.bmiHR? ∧
    coreItems e ans e.items = Except.ok c.itemHRs ∧
    coreCaps e.domains = Except.ok c.caps := by
  unfold computeCore at h
  cases hb : coreBMI e ans with
  | error er => rw [hb] at h; cases h
  | ok bmi? =>
      rw [hb] at h
      cases hl : coreItems e ans e.items with
      | error er => rw [hl] at h; cases h
      | ok l =>
          rw [hl] at h
          cases hc : coreCaps e.domains with
          | error er => rw [hc] at h; cases h
          | ok caps =>
              rw [hc] at h
              cases h
              exact ⟨rfl, rfl, rfl⟩

lemma coreItems_ok_domains {e : Engine} {ans : List (String × Raw)} :
    ∀ {its : List Item} {l : List (String × String × ℚ)},
      coreItems e ans its = Except.ok l →
      ∀ it ∈ its, ¬(it.id = "height" ∨ it.id = "weight") →
        (domKeys e).contains it.domain = true := by
  intro its
  induction its with
  | nil => intro l _ it hmem; cases hmem
  | cons a rest ih =>
      intro l h it hmem hskip
      unfold coreItems at h
      by_cases ha : a.id = "height" ∨ a.id = "weight"
      · rw [if_pos ha] at h
        rcases List.mem_cons.mp hmem with rfl | hmem'
        · exact absurd ha hskip
        · exact ih h it hmem' hskip
      · rw [if_neg ha] at h
        cases hbin : classifyAns a ans with
        | error er => simp only [hbin] at h; cases h
        | ok bin? =>
            simp only [hbin] at h
            cases hhr : itemHRval a bin? with
            | error er => simp only [hhr] at h; cases h
            | ok hr =>
                simp only [hhr] at h
                by_cases hdom : (domKeys e).contains a.domain = true
                · rw [if_pos hdom] at h
                  cases hrest : coreItems e ans rest with
                  | error er => simp only [hrest] at h; cases h
                  | ok l' =>
                      rcases List.mem_cons.mp hmem with rfl | hmem'
                      · exact hdom
                      · exact ih hrest it hmem' hskip
                · rw [if_neg hdom] at h; cases h

/- Claim theorems. -/

/-- C1 (counterexample): a configuration whose single item's hazard-ratio
array contains the non-positive value `-1` nonetheless constructs an
engine successfully, and the non-positive value is first detected during
a `compute` call that reaches that bin — refuting the claim that such a
configuration fails eagerly at construction time. -/
theorem C1_counterexample :
    (∃ it ∈ cfgC1.items, ∃ h ∈ it.hr, h ≤ 0) ∧
    (mkEngine cfgC1).isOk = true ∧
    (mkEngine cfgC1).bind (fun e => computeCore e [("i", Raw.int 0)]) =
      Except.error (Err.valueError "HR must be >0 for i") := by
  refine ⟨⟨itC1, by decide, ⟨-1, by decide, by norm_num⟩⟩, by decide, by decide⟩

/-- C1 (amended): validation does not inspect hazard-ratio values.  A
configuration with positive MRDT, well-formed domain caps and items of
well-formed lengths constructs successfully no matter what the
hazard-ratio values are; a non-positive hazard ratio is detected only
when a compute call selects it, at which point `_item_lnhr` raises a
`ValueError` naming the item. -/
theorem C1_amended (c : Config) (it : Item) (n : ℕ)
    (hm : 0 < c.mrdt_years)
    (hd : ∀ p ∈ c.domains, ∃ lo hi, p.2.lo? = some lo ∧ p.2.hi? = some hi ∧ lo ≤ hi)
    (hi : ∀ i ∈ c.items, 2 ≤ i.hr.length ∧
      ∀ bs, i.bins = some bs → bs.length = i.hr.length)
    (hn : n < it.hr.length) (hneg : it.hr.get ⟨n, hn⟩ ≤ 0) :
    (mkEngine c).isOk = true ∧
    itemHRval it (some (n : ℤ)) =
      Except.error (Err.valueError ("HR must be >0 for " ++ it.id)) := by
  refine ⟨mkEngine_ok c hm hd hi, ?_⟩
  rw [itemHRval_get it n hn, if_pos hneg]

/-- Witness for C1 (amended) at the concrete configuration `cfgC1`. -/
theorem C1_amended_witness :
    (mkEngine cfgC1).isOk = true ∧
    itemHRval itC1 (some ((0 : ℕ) : ℤ)) =
      Except.error (Err.valueError ("HR must be >0 for " ++ itC1.id)) :=
  C1_amended cfgC1 itC1 0 (by norm_num [cfgC1])
    (by intro p hp; simp [cfgC1] at hp; rw [hp]
        exact ⟨-1, 1, rfl, rfl, by norm_num⟩)
    (by intro i hi; simp [cfgC1] at hi; rw [hi]; simp [itC1])
    (by simp [itC1]) (by simp [itC1])

/- C2: direct-index classification. -/

/-- C2 (counterexample): the direct-index identity fails for items that
carry a numeric-range rule and for free-text items.  For `itC2r`
(hazard array of length 2, range rule matching everything from 0 up) the
valid bin index 1 is range-matched to bin 0; for the free-text item
`itC2f` the integer answer 1 classifies to no bin at all. -/
theorem C2_counterexample :
    ((1 : ℤ) ≤ (itC2r.hr.length : ℤ) - 1 ∧
      rawToBin itC2r (Raw.int 1) = Except.ok (some 0)) ∧
    ((1 : ℤ) ≤ (itC2f.hr.length : ℤ) - 1 ∧
      rawToBin itC2f (Raw.int 1) = Except.ok none) := by
  decide

/-- C2 (amended): for every item that has no numeric-range rule and is
not free text, classifying the direct-index raw value `i` with
`0 ≤ i ≤ len(hr) - 1` yields bin `i` unchanged. -/
theorem C2_amended (it : Item) (i : ℤ)
    (hft : it.input_type ≠ some "free_text")
    (hor : it.options_range = none)
    (h0 : 0 ≤ i) (h1 : i ≤ (it.hr.length : ℤ) - 1) :
    rawToBin it (Raw.int i) = Except.ok (some i) :=
  rawToBin_int it i hft hor h0 h1

/-- Witness for C2 (amended) at the plain three-bin item `itC2w`. -/
theorem C2_amended_witness :
    rawToBin itC2w (Raw.int 2) = Except.ok (some 2) :=
  C2_amended itC2w 2 (by decide) (by decide) (by decide) (by decide)

/- C7: multi-select count scoring. -/

lemma scoreMultiselect_nonneg (it : Item) (xs : List String)
    (hw : it.scoring_weights = []) : 0 ≤ scoreMultiselect it xs := by
  unfold scoreMultiselect
  by_cases h1 : xs.isEmpty
  · rw [if_pos h1]
  · rw [if_neg h1]
    by_cases h2 : xs.length = 1 ∧ sentinels.contains (xs.headD "") = true
    · rw [if_pos h2]
    · rw [if_neg h2, hw]
      simp

lemma pyInt_of_nonneg {q : ℚ} (h : 0 ≤ q) : pyInt q = ⌊q⌋ := if_pos h

/-- C7: with no scoring weights, the lone sentinel `["None"]` scores 0,
`["A","B"]` scores 2, and `["A","None"]` scores 1 — the sentinel is
excluded from the count but does not make the selection the
sentinel-alone case; and for a multi-select item other than the two
medical-history items the bin is `min(floor(score), max_bin)`. -/
theorem C7 (it : Item) (hw : it.scoring_weights = []) :
    scoreMultiselect it ["None"] = 0 ∧
    scoreMultiselect it ["A", "B"] = 2 ∧
    scoreMultiselect it ["A", "None"] = 1 ∧
    (it.input_type = some "multi_select" →
      it.id ≠ "family_history" → it.id ≠ "personal_conditions" →
      ∀ xs : List String,
        rawToBin it (Raw.listSel xs) =
          Except.ok (some (min ⌊scoreMultiselect it xs⌋
            ((it.hr.length : ℤ) - 1)))) := by
  refine ⟨?_, ?_, ?_, ?_⟩
  · simp [scoreMultiselect, sentinels]
  · simp [scoreMultiselect, sentinels, hw]
  · simp [scoreMultiselect, sentinels, hw]
  · intro hms hf hp xs
    have : rawToBin it (Raw.listSel xs) =
        multiSelectBin it xs ((it.hr.length : ℤ) - 1) := by
      simp only [rawToBin]
      rw [if_pos hms]
    rw [this]
    unfold multiSelectBin
    rw [if_neg (by simp [hf, hp])]
    rw [pyInt_of_nonneg (scoreMultiselect_nonneg it xs hw)]

/-- Witness for C7 at the weightless multi-select item `itC7`. -/
theorem C7_witness :
    scoreMultiselect itC7 ["None"] = 0 ∧
    scoreMultiselect itC7 ["A", "B"] = 2 ∧
    scoreMultiselect itC7 ["A", "None"] = 1 ∧
    (itC7.input_type = some "multi_select" →
      itC7.id ≠ "family_history" → itC7.id ≠ "personal_conditions" →
      ∀ xs : List String,
        rawToBin itC7 (Raw.listSel xs) =
          Except.ok (some (min ⌊scoreMultiselect itC7 xs⌋
            ((itC7.hr.length : ℤ) - 1)))) :=
  C7 itC7 rfl

/- C9: gender default for bare numeric answers. -/

lemma rawToBinScalar_not_str (it : Item) (raw : Raw) (mb : ℤ)
    (hstr : ∀ s, raw ≠ Raw.str s) (hft : it.input_type ≠ some "free_text") :
    rawToBinScalar it raw mb = rawToBinRange it raw mb := by
  unfold rawToBinScalar
  rw [if_neg hft]
  cases hopt : it.options with
  | none => cases raw <;> rfl
  | some mapping =>
      cases raw
      case str s => exact absurd rfl (hstr s)
      all_goals rfl

/-- C9: for an item whose numeric-range rule is gender-partitioned, a
bare numeric answer (an `int` or a `float` rather than a
`(value, gender)` tuple) is classified exactly as the same value paired
with `"male"`: the classifier silently defaults the missing category to
the male intervals. -/
theorem C9 (it : Item) (rngs : List RangeRule)
    (hor : it.options_range = some rngs)
    (hg : rngs.any (fun r => r.gender?.isSome) = true) (v : ℚ) (n : ℤ) :
    rawToBin it (Raw.num v) = rawToBin it (Raw.pair v "male") ∧
    rawToBin it (Raw.int n) = rawToBin it (Raw.pair (n : ℚ) "male") := by
  by_cases hft : it.input_type = some "free_text"
  · constructor <;> simp [rawToBin, rawToBinScalar, hft]
  · constructor
    · rw [show rawToBin it (Raw.num v) =
            rawToBinScalar it (Raw.num v) ((it.hr.length : ℤ) - 1) from rfl,
          show rawToBin it (Raw.pair v "male") =
            rawToBinScalar it (Raw.pair v "male") ((it.hr.length : ℤ) - 1) from rfl,
          rawToBinScalar_not_str it _ _ (fun s h => by cases h) hft,
          rawToBinScalar_not_str it _ _ (fun s h => by cases h) hft]
      unfold rawToBinRange
      simp [hor, rangeArg, hg]
    · rw [show rawToBin it (Raw.int n) =
            rawToBinScalar it (Raw.int n) ((it.hr.length : ℤ) - 1) from rfl,
          show rawToBin it (Raw.pair (n : ℚ) "male") =
            rawToBinScalar it (Raw.pair (n : ℚ) "male") ((it.hr.length : ℤ) - 1) from rfl,
          rawToBinScalar_not_str it _ _ (fun s h => by cases h) hft,
          rawToBinScalar_not_str it _ _ (fun s h => by cases h) hft]
      unfold rawToBinRange
      simp [hor, rangeArg, hg]

/-- Witness for C9 at the gender-partitioned item `itC9`. -/
theorem C9_witness :
    rawToBin itC9 (Raw.num 36) = rawToBin itC9 (Raw.pair 36 "male") ∧
    rawToBin itC9 (Raw.int 36) = rawToBin itC9 (Raw.pair ((36 : ℤ) : ℚ) "male") :=
  C9 itC9 _ rfl (by decide) 36 36

/- C10: compute is partial on validated configurations. -/

/-- C10: engine validation never checks that an item's domain is a key
of the domains mapping, so `compute` is partial on configurations that
pass validation: a successful `compute` requires every scored item's
domain to be a key (first conjunct), and on the two concrete
configurations — an item declaring the unknown domain `"d2"`, and
height/weight answers with no `"body"` domain — construction succeeds
and `compute` fails with an uncaught `KeyError` rather than a
configuration error. -/
theorem C10 :
    (∀ (e : Engine) (ans : List (String × Raw)) (c : CoreOut),
        computeCore e ans = Except.ok c →
        ∀ it ∈ e.items, ¬(it.id = "height" ∨ it.id = "weight") →
          (domKeys e).contains it.domain = true) ∧
    (mkEngine cfgC10a).isOk = true ∧
    (mkEngine cfgC10a).bind (fun e => computeCore e []) =
      Except.error (Err.keyError "d2") ∧
    (mkEngine cfgC10b).isOk = true ∧
    (mkEngine cfgC10b).bind
        (fun e => computeCore e [("height", Raw.num 70), ("weight", Raw.num 154)]) =
      Except.error (Err.keyError "body") := by
  refine ⟨?_, by decide, by decide, by decide, by decide⟩
  intro e ans c hc it hmem hskip
  exact coreItems_ok_domains (computeCore_ok_parts hc).2.1 it hmem hskip

/- Concrete evaluations of the compute pipeline on `eW` / `ansW`. -/

lemma computeCore_eW : computeCore eW ansW = Except.ok cW := by
  have hwh : ("weight" == "height") = false := by decide
  have hhh : ("height" == "height") = true := by decide
  have hww : ("weight" == "weight") = true := by decide
  norm_num [computeCore, coreBMI, coreItems, coreCaps, eW, ansW, cW,
    domKeys, rawNum?, calculateBMI, heightCm, weightKg, bmiHR, List.lookup,
    hwh, hhh, hww]

lemma compute_eW : eW.compute 40 ansW = Except.ok rW := by
  unfold Engine.compute rW
  rw [computeCore_eW]
  rfl

/- C4: global clamp and THA identity. -/

lemma compute_ok {e : Engine} {age : ℚ} {ans : List (String × Raw)} {r : THAResult}
    (h : e.compute age ans = Except.ok r) :
    ∃ c, computeCore e ans = Except.ok c ∧ r = resultOfCore e age c := by
  unfold Engine.compute at h
  cases hcc : computeCore e ans with
  | error er => rw [hcc] at h; cases h
  | ok c =>
      rw [hcc] at h
      simp only [Except.map] at h
      cases h
      exact ⟨c, rfl, rfl⟩

lemma resultOfCore_THA (e : Engine) (age : ℚ) (c : CoreOut) :
    (resultOfCore e age c).THA = ((age : ℚ) : ℝ) + (resultOfCore e age c).AgeAccel :=
  rfl

lemma resultOfCore_accel_clamped (e : Engine) (age : ℚ) (c : CoreOut) :
    ∃ d0 : ℝ, (resultOfCore e age c).AgeAccel =
      max (-((e.age_clamp_years : ℚ) : ℝ)) (min ((e.age_clamp_years : ℚ) : ℝ) d0) :=
  ⟨_, rfl⟩

/-- C4: whenever `compute` succeeds (and the configured global clamp is
nonnegative, as any meaningful symmetric bound is), the returned
age-acceleration lies within `[-age_clamp_years, age_clamp_years]` and
the returned True-Health-Age is exactly the chronological age plus the
age-acceleration. -/
theorem C4 (e : Engine) (age : ℚ) (ans : List (String × Raw)) (r : THAResult)
    (hclamp : 0 ≤ e.age_clamp_years)
    (h : e.compute age ans = Except.ok r) :
    -((e.age_clamp_years : ℚ) : ℝ) ≤ r.AgeAccel ∧
    r.AgeAccel ≤ ((e.age_clamp_years : ℚ) : ℝ) ∧
    r.THA = ((age : ℚ) : ℝ) + r.AgeAccel := by
  obtain ⟨c, hcc, hrc⟩ := compute_ok h
  subst hrc
  obtain ⟨d0, hacc⟩ := resultOfCore_accel_clamped e age c
  have hac : (0 : ℝ) ≤ ((e.age_clamp_years : ℚ) : ℝ) := by exact_mod_cast hclamp
  refine ⟨?_, ?_, resultOfCore_THA e age c⟩
  · rw [hacc]; exact le_max_left _ _
  · rw [hacc]
    exact max_le (by linarith) (min_le_left _ _)

/-- Witness for C4: the concrete engine `eW` at age 40. -/
theorem C4_witness :
    -((eW.age_clamp_years : ℚ) : ℝ) ≤ rW.AgeAccel ∧
    rW.AgeAccel ≤ ((eW.age_clamp_years : ℚ) : ℝ) ∧
    rW.THA = (((40 : ℚ) : ℚ) : ℝ) + rW.AgeAccel :=
  C4 eW 40 ansW rW (by norm_num [eW]) compute_eW

/- C3: BMI preprocessing. -/

lemma heightCm_pos (hv : ℚ) (hu : String) (h : 0 < hv) : 0 < heightCm hv hu := by
  unfold heightCm
  split_ifs <;> first
    | exact mul_pos h (by norm_num)
    | exact h

lemma calculateBMI_pos_some (hv wv : ℚ) (hu wu : String)
    (h1 : 0 < hv) (h2 : 0 < wv) :
    calculateBMI (some hv) (some wv) hu wu =
      some (weightKg wv wu / (heightCm hv hu / 100) ^ 2) := by
  simp only [calculateBMI]
  rw [if_neg (by push_neg; exact ⟨h1, h2⟩),
      if_neg (not_le.mpr (div_pos (heightCm_pos hv hu h1) (by norm_num)))]

lemma calculateBMI_nonpos (hv wv : ℚ) (hu wu : String)
    (h : hv ≤ 0 ∨ wv ≤ 0) :
    calculateBMI (some hv) (some wv) hu wu = none := by
  simp only [calculateBMI]
  rw [if_pos h]

lemma bmiHR_cases (bmi : ℚ) :
    (bmi < 18.5 → bmiHR (some bmi) = 1.2) ∧
    (18.5 ≤ bmi → bmi < 25 → bmiHR (some bmi) = 1) ∧
    (25 ≤ bmi → bmi < 30 → bmiHR (some bmi) = 1.15) ∧
    (30 ≤ bmi → bmi < 35 → bmiHR (some bmi) = 1.4) ∧
    (35 ≤ bmi → bmiHR (some bmi) = 1.8) := by
  simp only [bmiHR]
  refine ⟨fun h => if_pos h, fun h1 h2 => ?_, fun h1 h2 => ?_,
    fun h1 h2 => ?_, fun h1 => ?_⟩
  · rw [if_neg (not_lt.mpr h1), if_pos h2]
  · rw [if_neg (not_lt.mpr (by linarith)), if_neg (not_lt.mpr h1), if_pos h2]
  · rw [if_neg (not_lt.mpr (by linarith)), if_neg (not_lt.mpr (by linarith)),
        if_neg (not_lt.mpr h1), if_pos h2]
  · rw [if_neg (not_lt.mpr (by linarith)), if_neg (not_lt.mpr (by linarith)),
        if_neg (not_lt.mpr (by linarith)), if_neg (not_lt.mpr h1)]

lemma resultOfCore_itemYears_bmi (e : Engine) (age : ℚ) (c : CoreOut) (hrq : ℚ)
    (h : c.bmiHR? = some hrq) :
    (resultOfCore e age c).itemYears.lookup "bmi_calculated" =
      some (Real.log (hrq : ℝ) / e.b) := by
  simp [resultOfCore, h, List.lookup]

lemma domainRawLn_body (c : CoreOut) (hrq : ℚ) (h : c.bmiHR? = some hrq) :
    domainRawLn c "body" =
      Real.log (hrq : ℝ) +
        ((c.itemHRs.filter (fun t => t.2.1 == "body")).map
          (fun t => Real.log ((t.2.2 : ℚ) : ℝ))).sum := by
  simp [domainRawLn, h]

lemma coreBMI_ok {e : Engine} {ans : List (String × Raw)} {hv wv : ℚ} {b? : Option ℚ}
    (hh : ans.lookup "height" = some (Raw.num hv))
    (hw : ans.lookup "weight" = some (Raw.num wv))
    (hb : coreBMI e ans = Except.ok b?) :
    b? = some (bmiHR (calculateBMI (some hv) (some wv) "in" "lbs")) ∨
    (hv ≤ 0 ∧ b? = some (bmiHR none)) := by
  unfold coreBMI at hb
  rw [hh, hw] at hb
  simp only [rawNum?] at hb
  by_cases h1 : hv ≤ 0
  · rw [if_pos h1] at hb
    by_cases hbody : (domKeys e).contains "body" = true
    · rw [if_pos hbody] at hb
      cases hb
      exact Or.inr ⟨h1, rfl⟩
    · rw [if_neg hbody] at hb; cases hb
  · rw [if_neg h1] at hb
    by_cases hbody : (domKeys e).contains "body" = true
    · rw [if_pos hbody] at hb
      cases hb
      exact Or.inl rfl
    · rw [if_neg hbody] at hb; cases hb

/-- C3: in a successful `compute` with both height and weight answers
present as numbers, a BMI hazard ratio is always recorded: when both
values are positive it is determined by the BMI computed from the
imperial inputs through exactly the five clinical categories with
hazard ratios 1.20 / 1.00 / 1.15 / 1.40 / 1.80, and when the BMI cannot
be computed (a non-positive value) it is the fixed missing-data penalty
1.05; the log of that ratio is added to the `"body"` domain total and
recorded as the synthetic item `"bmi_calculated"`. -/
theorem C3 (e : Engine) (age : ℚ) (ans : List (String × Raw)) (hv wv : ℚ)
    (c : CoreOut)
    (hh : ans.lookup "height" = some (Raw.num hv))
    (hw : ans.lookup "weight" = some (Raw.num wv))
    (hc : computeCore e ans = Except.ok c) :
    ∃ hrq : ℚ, c.bmiHR? = some hrq ∧
      (0 < hv → 0 < wv →
        ∃ bmi : ℚ, calculateBMI (some hv) (some wv) "in" "lbs" = some bmi ∧
          hrq = bmiHR (some bmi) ∧
          (bmi < 18.5 → hrq = 1.2) ∧
          (18.5 ≤ bmi → bmi < 25 → hrq = 1) ∧
          (25 ≤ bmi → bmi < 30 → hrq = 1.15) ∧
          (30 ≤ bmi → bmi < 35 → hrq = 1.4) ∧
          (35 ≤ bmi → hrq = 1.8)) ∧
      (¬(0 < hv ∧ 0 < wv) → hrq = 1.05) ∧
      (resultOfCore e age c).itemYears.lookup "bmi_calculated" =
        some (Real.log (hrq : ℝ) / e.b) ∧
      domainRawLn c "body" =
        Real.log (hrq : ℝ) +
          ((c.itemHRs.filter (fun t => t.2.1 == "body")).map
            (fun t => Real.log ((t.2.2 : ℚ) : ℝ))).sum := by
  obtain ⟨hb, -, -⟩ := computeCore_ok_parts hc
  rcases coreBMI_ok hh hw hb with hcase | ⟨h1, hcase⟩
  · by_cases hp : 0 < hv ∧ 0 < wv
    · obtain ⟨h1, h2⟩ := hp
      refine ⟨bmiHR (calculateBMI (some hv) (some wv) "in" "lbs"), hcase,
        fun _ _ => ?_, fun hn => absurd ⟨h1, h2⟩ hn,
        resultOfCore_itemYears_bmi e age c _ hcase,
        domainRawLn_body c _ hcase⟩
      refine ⟨weightKg wv "lbs" / (heightCm hv "in" / 100) ^ 2,
        calculateBMI_pos_some hv wv "in" "lbs" h1 h2, ?_, ?_⟩
      · rw [calculateBMI_pos_some hv wv "in" "lbs" h1 h2]
      · rw [calculateBMI_pos_some hv wv "in" "lbs" h1 h2]
        exact bmiHR_cases _
    · have hone : hv ≤ 0 ∨ wv ≤ 0 := by
        rcases not_and_or.mp hp with h | h
        · exact Or.inl (not_lt.mp h)
        · exact Or.inr (not_lt.mp h)
      rw [calculateBMI_nonpos hv wv "in" "lbs" hone] at hcase
      refine ⟨bmiHR none, hcase,
        fun ha hb' => absurd ⟨ha, hb'⟩ hp, fun _ => rfl,
        resultOfCore_itemYears_bmi e age c _ hcase,
        domainRawLn_body c _ hcase⟩
  · refine ⟨bmiHR none, hcase,
      fun ha _ => absurd ha (not_lt.mpr h1), fun _ => rfl,
      resultOfCore_itemYears_bmi e age c _ hcase,
      domainRawLn_body c _ hcase⟩

/-- Witness for C3: `eW` with height 70 in and weight 154 lbs. -/
theorem C3_witness :
    ∃ hrq : ℚ, cW.bmiHR? = some hrq ∧
      (0 < (70 : ℚ) → 0 < (154 : ℚ) →
        ∃ bmi : ℚ,
          calculateBMI (some (70 : ℚ)) (some (154 : ℚ)) "in" "lbs" = some bmi ∧
          hrq = bmiHR (some bmi) ∧
          (bmi < 18.5 → hrq = 1.2) ∧
          (18.5 ≤ bmi → bmi < 25 → hrq = 1) ∧
          (25 ≤ bmi → bmi < 30 → hrq = 1.15) ∧
          (30 ≤ bmi → bmi < 35 → hrq = 1.4) ∧
          (35 ≤ bmi → hrq = 1.8)) ∧
      (¬((0 : ℚ) < 70 ∧ (0 : ℚ) < 154) → hrq = 1.05) ∧
      (resultOfCore eW 40 cW).itemYears.lookup "bmi_calculated" =
        some (Real.log (hrq : ℝ) / eW.b) ∧
      domainRawLn cW "body" =
        Real.log (hrq : ℝ) +
          ((cW.itemHRs.filter (fun t => t.2.1 == "body")).map
            (fun t => Real.log ((t.2.2 : ℚ) : ℝ))).sum :=
  C3 eW 40 ansW 70 154 cW (by decide) (by decide) computeCore_eW

/- C5: per-domain clamping. -/

lemma coreCaps_mem :
    ∀ {ds : List (String × DomainCaps)} {l : List (String × ℚ × ℚ)},
      coreCaps ds = Except.ok l →
      ∀ {d : String} {lo hi : ℚ}, (d, lo, hi) ∈ l →
        ∃ caps : DomainCaps, (d, caps) ∈ ds ∧
          caps.lo? = some lo ∧ caps.hi? = some hi := by
  intro ds
  induction ds with
  | nil =>
      intro l h d lo hi hmem
      cases h
      cases hmem
  | cons p rest ih =>
      intro l h d lo hi hmem
      obtain ⟨d0, caps0⟩ := p
      unfold coreCaps at h
      cases hlo : caps0.lo? with
      | none => simp only [hlo] at h; cases h
      | some lo0 =>
          simp only [hlo] at h
          cases hhi : caps0.hi? with
          | none => simp only [hhi] at h; cases h
          | some hi0 =>
              simp only [hhi] at h
              cases hrest : coreCaps rest with
              | error er => simp only [hrest] at h; cases h
              | ok l' =>
                  simp only [hrest] at h
                  cases h
                  rcases List.mem_cons.mp hmem with heq | hmem'
                  · injection heq with h1 h2
                    injection h2 with h2 h3
                    subst h1; subst h2; subst h3
                    exact ⟨caps0, List.mem_cons_self _ _, hlo, hhi⟩
                  · obtain ⟨caps, hc1, hc2, hc3⟩ := ih hrest hmem'
                    exact ⟨caps, List.mem_cons_of_mem _ hc1, hc2, hc3⟩

lemma clamp_mem_Icc {lo hi x : ℝ} (h : lo ≤ hi) :
    lo ≤ clamp lo hi x ∧ clamp lo hi x ≤ hi :=
  ⟨le_max_left _ _, max_le h (min_le_left _ _)⟩

lemma resultOfCore_domainYears_mem (e : Engine) (age : ℚ) (c : CoreOut)
    {d : String} {lo hi : ℚ} (hd : (d, lo, hi) ∈ c.caps) :
    (d, clamp (lo : ℝ) (hi : ℝ) (domainRawLn c d) / e.b) ∈
      (resultOfCore e age c).domainYears := by
  have h1 : ((d, lo, hi).1,
      clamp ((d, lo, hi).2.1 : ℝ) ((d, lo, hi).2.2 : ℝ)
        (domainRawLn c (d, lo, hi).1)) ∈
      c.caps.map (fun t =>
        (t.1, clamp (t.2.1 : ℝ) (t.2.2 : ℝ) (domainRawLn c t.1))) :=
    List.mem_map_of_mem _ hd
  exact List.mem_map_of_mem (fun p => (p.1, p.2 / e.b)) h1

/-- C5: in every successful evaluation of an engine whose domain caps
are well-formed (`lo ≤ hi`, as validation enforces), each domain's
post-clamp log-hazard total — the clamp of the summed, unclamped item
contributions, applied once per domain — lies within
`[ln_cap_lo, ln_cap_hi]`, and exactly that clamped value (divided by
`b`) is reported for the domain in the result. -/
theorem C5 (e : Engine) (age : ℚ) (ans : List (String × Raw)) (c : CoreOut)
    (hc : computeCore e ans = Except.ok c)
    (hvalid : ∀ p ∈ e.domains, ∀ lo hi : ℚ,
      p.2.lo? = some lo → p.2.hi? = some hi → lo ≤ hi)
    (d : String) (lo hi : ℚ) (hd : (d, lo, hi) ∈ c.caps) :
    ((lo : ℝ) ≤ clamp (lo : ℝ) (hi : ℝ) (domainRawLn c d) ∧
      clamp (lo : ℝ) (hi : ℝ) (domainRawLn c d) ≤ (hi : ℝ)) ∧
    (d, clamp (lo : ℝ) (hi : ℝ) (domainRawLn c d) / e.b) ∈
      (resultOfCore e age c).domainYears := by
  obtain ⟨-, -, hcaps⟩ := computeCore_ok_parts hc
  obtain ⟨caps, hmem, hlo, hhi⟩ := coreCaps_mem hcaps hd
  have hle : lo ≤ hi := hvalid (d, caps) hmem lo hi hlo hhi
  exact ⟨clamp_mem_Icc (by exact_mod_cast hle),
    resultOfCore_domainYears_mem e age c hd⟩

/-- Witness for C5: the `"body"` domain of `eW` with caps `[-5, 5]`. -/
theorem C5_witness :
    (((-5 : ℚ) : ℝ) ≤ clamp ((-5 : ℚ) : ℝ) ((5 : ℚ) : ℝ) (domainRawLn cW "body") ∧
      clamp ((-5 : ℚ) : ℝ) ((5 : ℚ) : ℝ) (domainRawLn cW "body") ≤ ((5 : ℚ) : ℝ)) ∧
    ("body", clamp ((-5 : ℚ) : ℝ) ((5 : ℚ) : ℝ) (domainRawLn cW "body") / eW.b) ∈
      (resultOfCore eW 40 cW).domainYears :=
  C5 eW 40 ansW cW computeCore_eW
    (by intro p hp lo hi hlo hhi
        simp only [eW, List.mem_singleton] at hp
        subst hp
        simp only at hlo hhi
        injection hlo with hlo
        injection hhi with hhi
        subst hlo; subst hhi
        norm_num)
    "body" (-5) 5 (by decide)

/- C8: what-if round trip and the shallow merge. -/

lemma lookup_cons_self (a : String) (b : Raw) (t : List (String × Raw)) :
    ((a, b) :: t).lookup a = some b := by
  simp [List.lookup]

lemma lookup_cons_ne (a k : String) (b : Raw) (t : List (String × Raw))
    (h : k ≠ a) : ((a, b) :: t).lookup k = t.lookup k := by
  simp only [List.lookup]
  rw [show (k == a) = false from by simpa using h]

lemma lookup_map_replace_ne (m : List (String × Raw)) (k : String) (v : Raw)
    (k' : String) (hk : k' ≠ k) :
    (m.map (fun p => if p.1 == k then (k, v) else p)).lookup k' =
      m.lookup k' := by
  induction m with
  | nil => rfl
  | cons p t ih =>
      obtain ⟨a, b⟩ := p
      simp only [List.map_cons]
      by_cases ha : a = k
      · subst ha
        rw [if_pos (show ((a, b).1 == a) = true from by simp)]
        rw [lookup_cons_ne a k' v _ hk, lookup_cons_ne a k' b t hk]
        exact ih
      · rw [if_neg (show ¬((a, b).1 == k) = true from by simpa using ha)]
        by_cases hk2 : k' = a
        · subst hk2
          rw [lookup_cons_self, lookup_cons_self]
        · rw [lookup_cons_ne a k' b _ hk2, lookup_cons_ne a k' b t hk2]
          exact ih

lemma lookup_map_replace_self (m : List (String × Raw)) (k : String) (v : Raw)
    (hany : m.any (fun p => p.1 == k) = true) :
    (m.map (fun p => if p.1 == k then (k, v) else p)).lookup k = some v := by
  induction m with
  | nil => cases hany
  | cons p t ih =>
      obtain ⟨a, b⟩ := p
      simp only [List.map_cons]
      by_cases ha : a = k
      · subst ha
        rw [if_pos (show ((a, b).1 == a) = true from by simp)]
        exact lookup_cons_self a v _
      · rw [if_neg (show ¬((a, b).1 == k) = true from by simpa using ha)]
        rw [lookup_cons_ne a k b _ (Ne.symm (by simpa using ha))]
        apply ih
        simpa [show ((a, b).1 == k) = false from by simpa using ha] using hany

lemma lookup_eq_none_of_any_false (m : List (String × Raw)) (k : String)
    (h : m.any (fun p => p.1 == k) = false) : m.lookup k = none := by
  induction m with
  | nil => rfl
  | cons p t ih =>
      obtain ⟨a, b⟩ := p
      simp only [List.any_cons, Bool.or_eq_false_iff] at h
      rw [lookup_cons_ne a k b t (Ne.symm (by simpa using h.1))]
      exact ih h.2

lemma lookup_append_kv (m : List (String × Raw)) (k : String) (v : Raw)
    (k' : String) :
    (m ++ [(k, v)]).lookup k' =
      ((m.lookup k').elim (if k' = k then some v else none) some) := by
  induction m with
  | nil =>
      by_cases hk : k' = k
      · subst hk
        simp [lookup_cons_self, Option.elim]
      · simp only [List.nil_append, List.lookup, Option.elim]
        rw [show (k' == k) = false from by simpa using hk, if_neg hk]
  | cons p t ih =>
      obtain ⟨a, b⟩ := p
      by_cases hp : k' = a
      · subst hp
        rw [List.cons_append, lookup_cons_self, lookup_cons_self]
        rfl
      · rw [List.cons_append, lookup_cons_ne a k' b _ hp,
            lookup_cons_ne a k' b t hp]
        exact ih

lemma lookup_dictSet (m : List (String × Raw)) (k : String) (v : Raw)
    (k' : String) :
    (dictSet m k v).lookup k' = if k' = k then some v else m.lookup k' := by
  unfold dictSet
  by_cases hany : m.any (fun p => p.1 == k) = true
  · rw [if_pos hany]
    by_cases hk : k' = k
    · subst hk
      rw [if_pos rfl]
      exact lookup_map_replace_self m k' v hany
    · rw [if_neg hk]
      exact lookup_map_replace_ne m k v k' hk
  · have hfalse : (m.any fun p => p.1 == k) = false := by
      cases hb : m.any fun p => p.1 == k
      · rfl
      · exact absurd hb hany
    rw [if_neg hany, lookup_append_kv]
    by_cases hk : k' = k
    · rw [hk, lookup_eq_none_of_any_false m k hfalse]
      simp [Option.elim]
    · cases hm : m.lookup k' with
      | none => simp [Option.elim, hk]
      | some b => simp [Option.elim, hk]

lemma lookup_not_mem_keys (c : List (String × Raw)) (k : String)
    (h : k ∉ c.map Prod.fst) : c.lookup k = none := by
  induction c with
  | nil => rfl
  | cons p t ih =>
      obtain ⟨a, b⟩ := p
      simp only [List.map_cons, List.mem_cons] at h
      push_neg at h
      rw [lookup_cons_ne a k b t h.1]
      exact ih h.2

lemma lookup_dictUpdate (c : List (String × Raw)) :
    ∀ (a : List (String × Raw)), (c.map Prod.fst).Nodup → ∀ k : String,
      (dictUpdate a c).lookup k = ((c.lookup k).elim (a.lookup k) some) := by
  induction c with
  | nil => intro a _ k; rfl
  | cons p c' ih =>
      intro a hnd k
      obtain ⟨k0, v0⟩ := p
      have step : dictUpdate a ((k0, v0) :: c') =
          dictUpdate (dictSet a k0 v0) c' := rfl
      rw [step]
      simp only [List.map_cons, List.nodup_cons] at hnd
      rw [ih (dictSet a k0 v0) hnd.2 k]
      by_cases hk : k = k0
      · subst hk
        rw [lookup_not_mem_keys c' _ hnd.1, lookup_cons_self, lookup_dictSet]
        simp [Option.elim]
      · rw [lookup_cons_ne k0 k v0 c' hk]
        cases hc : c'.lookup k with
        | some b => simp [Option.elim]
        | none =>
            simp only [Option.elim]
            rw [lookup_dictSet, if_neg hk]

/-- C8: a successful baseline evaluation gives `what_if` with an empty
change set the result `delta_years = 0` and `new_THA = old_THA`; and in
general the proposed answer map of `what_if` is the shallow merge in
which an override value replaces the baseline value for the same
identifier and every other identifier is unchanged. -/
theorem C8 (e : Engine) (age : ℚ) (ans : List (String × Raw)) (r : THAResult)
    (h : e.compute age ans = Except.ok r) :
    e.what_if age ans [] = Except.ok ⟨0, r.THA, r.THA⟩ ∧
    ∀ (a c : List (String × Raw)) (k : String), (c.map Prod.fst).Nodup →
      (dictUpdate a c).lookup k = ((c.lookup k).elim (a.lookup k) some) := by
  constructor
  · have hupd : dictUpdate ans [] = ans := rfl
    unfold Engine.what_if
    rw [hupd, h]
    simp [h]
  · intro a c k hnd
    exact lookup_dictUpdate c a hnd k

/-- Witness for C8: the engine `eW` at age 40 with answers `ansW`. -/
theorem C8_witness :
    eW.what_if 40 ansW [] = Except.ok ⟨0, rW.THA, rW.THA⟩ ∧
    ∀ (a c : List (String × Raw)) (k : String), (c.map Prod.fst).Nodup →
      (dictUpdate a c).lookup k = ((c.lookup k).elim (a.lookup k) some) :=
  C8 eW 40 ansW rW compute_eW

/- C6: monotonicity of a one-bin improvement. -/

lemma b_pos (e : Engine) (h : 0 < e.mrdt_years) : 0 < e.b :=
  div_pos (Real.log_pos one_lt_two) (by exact_mod_cast h)

lemma clamp_mono (lo hi : ℝ) {x y : ℝ} (h : x ≤ y) :
    clamp lo hi x ≤ clamp lo hi y :=
  max_le_max (le_refl lo) (min_le_min (le_refl hi) h)

lemma mem_right_of_forall2 {α β : Type} {R : α → β → Prop} :
    ∀ {l1 : List α} {l2 : List β}, List.Forall₂ R l1 l2 →
      ∀ b ∈ l2, ∃ a ∈ l1, R a b := by
  intro l1 l2 h
  induction h with
  | nil => intro b hb; cases hb
  | cons hrel _ ih =>
      intro b hb
      rcases List.mem_cons.mp hb with rfl | hb'
      · exact ⟨_, List.mem_cons_self _ _, hrel⟩
      · obtain ⟨a, ha, har⟩ := ih b hb'
        exact ⟨a, List.mem_cons_of_mem _ ha, har⟩

lemma forall2_filter_log_sum (d : String)
    {l1 l2 : List (String × String × ℚ)}
    (h : List.Forall₂ (fun t1 t2 => t1.1 = t2.1 ∧ t1.2.1 = t2.2.1 ∧
      0 < t1.2.2 ∧ 0 < t2.2.2 ∧ t2.2.2 ≤ t1.2.2) l1 l2) :
    ((l2.filter (fun t => t.2.1 == d)).map
      (fun t => Real.log ((t.2.2 : ℚ) : ℝ))).sum ≤
    ((l1.filter (fun t => t.2.1 == d)).map
      (fun t => Real.log ((t.2.2 : ℚ) : ℝ))).sum := by
  induction h with
  | nil => exact le_refl 0
  | @cons t1 t2 l1' l2' hrel hrest ih =>
      obtain ⟨-, hdom, hp1, hp2, hle⟩ := hrel
      by_cases hd : (t1.2.1 == d) = true
      · have hd2 : (t2.2.1 == d) = true := by rw [← hdom]; exact hd
        simp only [List.filter_cons, hd, hd2, if_true, List.map_cons,
          List.sum_cons]
        have hlog : Real.log ((t2.2.2 : ℚ) : ℝ) ≤ Real.log ((t1.2.2 : ℚ) : ℝ) :=
          Real.log_le_log (by exact_mod_cast hp2) (by exact_mod_cast hle)
        exact add_le_add hlog ih
      · have hd2 : ¬(t2.2.1 == d) = true := by rw [← hdom]; exact hd
        simp only [List.filter_cons, if_neg hd, if_neg hd2]
        exact ih

lemma domainRawLn_mono (c1 c2 : CoreOut) (hbmi : c2.bmiHR? = c1.bmiHR?)
    (hf : List.Forall₂ (fun t1 t2 => t1.1 = t2.1 ∧ t1.2.1 = t2.2.1 ∧
      0 < t1.2.2 ∧ 0 < t2.2.2 ∧ t2.2.2 ≤ t1.2.2) c1.itemHRs c2.itemHRs)
    (d : String) : domainRawLn c2 d ≤ domainRawLn c1 d := by
  unfold domainRawLn
  rw [hbmi]
  exact add_le_add_left (forall2_filter_log_sum d hf) _

lemma coreBMI_congr (e : Engine) (ans1 ans2 : List (String × Raw))
    (hh : ans2.lookup "height" = ans1.lookup "height")
    (hw : ans2.lookup "weight" = ans1.lookup "weight") :
    coreBMI e ans2 = coreBMI e ans1 := by
  unfold coreBMI
  rw [hh, hw]

lemma coreItems_mem_of (e : Engine) (ans : List (String × Raw)) (it : Item)
    (n : ℕ) (hn : n < it.hr.length)
    (hid : ¬(it.id = "height" ∨ it.id = "weight"))
    (hft : it.input_type ≠ some "free_text") (hor : it.options_range = none)
    (hlook : ans.lookup it.id = some (Raw.int (n : ℤ))) :
    ∀ (its : List Item) (l : List (String × String × ℚ)),
      coreItems e ans its = Except.ok l → it ∈ its →
      (it.id, it.domain, it.hr.get ⟨n, hn⟩) ∈ l := by
  intro its
  induction its with
  | nil => intro l _ hmem; cases hmem
  | cons a rest ih =>
      intro l h hmem
      unfold coreItems at h
      by_cases ha : a.id = "height" ∨ a.id = "weight"
      · rw [if_pos ha] at h
        rcases List.mem_cons.mp hmem with rfl | hmem'
        · exact absurd ha hid
        · exact ih l h hmem'
      · rw [if_neg ha] at h
        cases hbin : classifyAns a ans with
        | error er => simp only [hbin] at h; cases h
        | ok bin? =>
            simp only [hbin] at h
            cases hhr : itemHRval a bin? with
            | error er => simp only [hhr] at h; cases h
            | ok hr =>
                simp only [hhr] at h
                by_cases hdom : (domKeys e).contains a.domain = true
                · rw [if_pos hdom] at h
                  cases hrest : coreItems e ans rest with
                  | error er => simp only [hrest] at h; cases h
                  | ok l' =>
                      simp only [hrest] at h
                      cases h
                      rcases List.mem_cons.mp hmem with rfl | hmem'
                      · have hcls : classifyAns it ans = Except.ok (some (n : ℤ)) := by
                          unfold classifyAns
                          rw [hlook]
                          exact rawToBin_int it (n : ℤ) hft hor (by omega) (by omega)
                        rw [hbin] at hcls
                        injection hcls with hb
                        subst hb
                        rw [itemHRval_get it n hn] at hhr
                        by_cases hp : it.hr.get ⟨n, hn⟩ ≤ 0
                        · rw [if_pos hp] at hhr; cases hhr
                        · rw [if_neg hp] at hhr
                          injection hhr with hh2
                          subst hh2
                          exact List.mem_cons_self _ _
                      · exact List.mem_cons_of_mem _ (ih l' hrest hmem')
                · rw [if_neg hdom] at h; cases h

lemma coreItems_mono (e : Engine) (ans1 ans2 : List (String × Raw)) (it : Item)
    (i : ℕ)
    (hft : it.input_type ≠ some "free_text") (hor : it.options_range = none)
    (hrange : i + 1 < it.hr.length)
    (hdec : it.hr.get ⟨i + 1, hrange⟩ ≤ it.hr.get ⟨i, Nat.lt_of_succ_lt hrange⟩)
    (hi1 : ans1.lookup it.id = some (Raw.int (i : ℤ)))
    (hi2 : ans2.lookup it.id = some (Raw.int ((i : ℤ) + 1)))
    (hothers : ∀ k, k ≠ it.id → ans2.lookup k = ans1.lookup k) :
    ∀ (its : List Item), (∀ it' ∈ its, it'.id = it.id → it' = it) →
      ∀ (l1 l2 : List (String × String × ℚ)),
        coreItems e ans1 its = Except.ok l1 →
        coreItems e ans2 its = Except.ok l2 →
        List.Forall₂ (fun t1 t2 => t1.1 = t2.1 ∧ t1.2.1 = t2.2.1 ∧
          0 < t1.2.2 ∧ 0 < t2.2.2 ∧ t2.2.2 ≤ t1.2.2) l1 l2 := by
  intro its
  induction its with
  | nil =>
      intro _ l1 l2 h1 h2
      cases h1; cases h2
      exact List.Forall₂.nil
  | cons a rest ih =>
      intro hun l1 l2 h1 h2
      have hrest_un : ∀ it' ∈ rest, it'.id = it.id → it' = it :=
        fun x hx => hun x (List.mem_cons_of_mem a hx)
      unfold coreItems at h1 h2
      by_cases ha : a.id = "height" ∨ a.id = "weight"
      · rw [if_pos ha] at h1 h2
        exact ih hrest_un l1 l2 h1 h2
      · rw [if_neg ha] at h1 h2
        by_cases haid : a.id = it.id
        · have ha_eq : a = it := hun a (List.mem_cons_self a rest) haid
          subst ha_eq
          have hc1 : classifyAns a ans1 = Except.ok (some (i : ℤ)) := by
            unfold classifyAns
            rw [hi1]
            exact rawToBin_int a (i : ℤ) hft hor (by omega) (by omega)
          have hc2 : classifyAns a ans2 = Except.ok (some ((i + 1 : ℕ) : ℤ)) := by
            unfold classifyAns
            rw [hi2]
            have hcast : ((i : ℤ) + 1) = ((i + 1 : ℕ) : ℤ) := by push_cast; ring
            rw [hcast]
            exact rawToBin_int a ((i + 1 : ℕ) : ℤ) hft hor (by omega) (by omega)
          simp only [hc1, itemHRval_get a i (Nat.lt_of_succ_lt hrange)] at h1
          simp only [hc2, itemHRval_get a (i + 1) hrange] at h2
          by_cases hp1 : a.hr.get ⟨i, Nat.lt_of_succ_lt hrange⟩ ≤ 0
          · simp only [if_pos hp1] at h1; cases h1
          · simp only [if_neg hp1] at h1
            by_cases hp2 : a.hr.get ⟨i + 1, hrange⟩ ≤ 0
            · simp only [if_pos hp2] at h2; cases h2
            · simp only [if_neg hp2] at h2
              by_cases hdom : (domKeys e).contains a.domain = true
              · rw [if_pos hdom] at h1 h2
                cases hr1 : coreItems e ans1 rest with
                | error er => simp only [hr1] at h1; cases h1
                | ok l1' =>
                    simp only [hr1] at h1
                    cases hr2 : coreItems e ans2 rest with
                    | error er => simp only [hr2] at h2; cases h2
                    | ok l2' =>
                        simp only [hr2] at h2
                        cases h1; cases h2
                        exact List.Forall₂.cons
                          ⟨rfl, rfl, lt_of_not_le hp1, lt_of_not_le hp2, hdec⟩
                          (ih hrest_un l1' l2' hr1 hr2)
              · rw [if_neg hdom] at h1; cases h1
        · have hsame : ans2.lookup a.id = ans1.lookup a.id := hothers a.id haid
          have hcls_eq : classifyAns a ans2 = classifyAns a ans1 := by
            unfold classifyAns
            rw [hsame]
          cases hcls : classifyAns a ans1 with
          | error er =>
              simp only [hcls] at h1
              cases h1
          | ok bin? =>
              rw [hcls_eq] at h2
              simp only [hcls] at h1 h2
              cases hhr : itemHRval a bin? with
              | error er => simp only [hhr] at h1; cases h1
              | ok hr =>
                  simp only [hhr] at h1 h2
                  by_cases hdom : (domKeys e).contains a.domain = true
                  · rw [if_pos hdom] at h1 h2
                    cases hr1 : coreItems e ans1 rest with
                    | error er => simp only [hr1] at h1; cases h1
                    | ok l1' =>
                        simp only [hr1] at h1
                        cases hr2 : coreItems e ans2 rest with
                        | error er => simp only [hr2] at h2; cases h2
                        | ok l2' =>
                            simp only [hr2] at h2
                            cases h1; cases h2
                            exact List.Forall₂.cons
                              ⟨rfl, rfl, itemHRval_pos hhr, itemHRval_pos hhr,
                                le_refl hr⟩
                              (ih hrest_un l1' l2' hr1 hr2)
                  · rw [if_neg hdom] at h1; cases h1

/-- C6: for an item classified by direct bin index whose hazard-ratio
array is non-increasing between bins `i` and `i+1`, changing that one
answer from bin `i` to bin `i+1` while every other answer stays fixed
records a hazard ratio no larger than before (so the item's years
contribution `log(hr)/b` never increases), and every domain's clamped
log-hazard total — in particular the owning domain's, even when it sat
at its cap — never exceeds its prior value. -/
theorem C6 (e : Engine) (ans1 ans2 : List (String × Raw)) (it : Item) (i : ℕ)
    (c1 c2 : CoreOut)
    (hmrdt : 0 < e.mrdt_years)
    (hnodup : (e.items.map Item.id).Nodup)
    (hit : it ∈ e.items)
    (hid : ¬(it.id = "height" ∨ it.id = "weight"))
    (hft : it.input_type ≠ some "free_text")
    (hor : it.options_range = none)
    (hrange : i + 1 < it.hr.length)
    (hdec : it.hr.get ⟨i + 1, hrange⟩ ≤ it.hr.get ⟨i, Nat.lt_of_succ_lt hrange⟩)
    (hi1 : ans1.lookup it.id = some (Raw.int (i : ℤ)))
    (hi2 : ans2.lookup it.id = some (Raw.int ((i : ℤ) + 1)))
    (hothers : ∀ k, k ≠ it.id → ans2.lookup k = ans1.lookup k)
    (h1 : computeCore e ans1 = Except.ok c1)
    (h2 : computeCore e ans2 = Except.ok c2) :
    (it.id, it.domain, it.hr.get ⟨i, Nat.lt_of_succ_lt hrange⟩) ∈ c1.itemHRs ∧
    (it.id, it.domain, it.hr.get ⟨i + 1, hrange⟩) ∈ c2.itemHRs ∧
    Real.log ((it.hr.get ⟨i + 1, hrange⟩ : ℚ) : ℝ) / e.b ≤
      Real.log ((it.hr.get ⟨i, Nat.lt_of_succ_lt hrange⟩ : ℚ) : ℝ) / e.b ∧
    ∀ (d : String) (lo hi : ℚ), (d, lo, hi) ∈ c1.caps →
      clamp (lo : ℝ) (hi : ℝ) (domainRawLn c2 d) ≤
        clamp (lo : ℝ) (hi : ℝ) (domainRawLn c1 d) := by
  obtain ⟨hb1, hl1, -⟩ := computeCore_ok_parts h1
  obtain ⟨hb2, hl2, -⟩ := computeCore_ok_parts h2
  have hun : ∀ it' ∈ e.items, it'.id = it.id → it' = it :=
    fun it' hmem' heq => List.inj_on_of_nodup_map hnodup hmem' hit heq
  have hm1 := coreItems_mem_of e ans1 it i (Nat.lt_of_succ_lt hrange) hid hft
    hor hi1 e.items c1.itemHRs hl1 hit
  have hi2' : ans2.lookup it.id = some (Raw.int ((i + 1 : ℕ) : ℤ)) := by
    rw [hi2]
    norm_cast
  have hm2 := coreItems_mem_of e ans2 it (i + 1) hrange hid hft hor hi2'
    e.items c2.itemHRs hl2 hit
  have hf := coreItems_mono e ans1 ans2 it i hft hor hrange hdec hi1 hi2
    hothers e.items hun c1.itemHRs c2.itemHRs hl1 hl2
  have hpos2 : 0 < it.hr.get ⟨i + 1, hrange⟩ := by
    obtain ⟨a, -, -, -, -, hp, -⟩ := mem_right_of_forall2 hf _ hm2
    exact hp
  refine ⟨hm1, hm2, ?_, ?_⟩
  · have hb := b_pos e hmrdt
    have hlog : Real.log ((it.hr.get ⟨i + 1, hrange⟩ : ℚ) : ℝ) ≤
        Real.log ((it.hr.get ⟨i, Nat.lt_of_succ_lt hrange⟩ : ℚ) : ℝ) :=
      Real.log_le_log (by exact_mod_cast hpos2) (by exact_mod_cast hdec)
    exact (div_le_div_iff_of_pos_right hb).mpr hlog
  · intro d lo hi _
    have hbmi : c2.bmiHR? = c1.bmiHR? := by
      have hcongr := coreBMI_congr e ans1 ans2
        (hothers "height" (fun he => hid (Or.inl he.symm)))
        (hothers "weight" (fun he => hid (Or.inr he.symm)))
      rw [hcongr, hb1] at hb2
      injection hb2 with hbe
      exact hbe.symm
    exact clamp_mono _ _ (domainRawLn_mono c1 c2 hbmi hf d)

/-- Witness for C6: the one-item engine `eW6`, moving item `"x"` from
bin 0 (hazard 2) to bin 1 (hazard 1). -/
theorem C6_witness :
    (itW6.id, itW6.domain, itW6.hr.get ⟨0, by decide⟩) ∈ cW6a.itemHRs ∧
    (itW6.id, itW6.domain, itW6.hr.get ⟨0 + 1, by decide⟩) ∈ cW6b.itemHRs ∧
    Real.log ((itW6.hr.get ⟨0 + 1, by decide⟩ : ℚ) : ℝ) / eW6.b ≤
      Real.log ((itW6.hr.get ⟨0, by decide⟩ : ℚ) : ℝ) / eW6.b ∧
    ∀ (d : String) (lo hi : ℚ), (d, lo, hi) ∈ cW6a.caps →
      clamp (lo : ℝ) (hi : ℝ) (domainRawLn cW6b d) ≤
        clamp (lo : ℝ) (hi : ℝ) (domainRawLn cW6a d) :=
  C6 eW6 ansW6a ansW6b itW6 0 cW6a cW6b (by decide) (by decide) (by decide)
    (by decide) (by decide) rfl (by decide) (by decide) (by decide) (by decide)
    (fun k hk => by
      simp only [ansW6a, ansW6b]
      rw [lookup_cons_ne "x" k (Raw.int 1) [] hk,
          lookup_cons_ne "x" k (Raw.int 0) [] hk])
    (by decide) (by decide)

end THA
